import Mathlib

/-!
# Verification of the github-editor-split-view extension

A shallow embedding, in Lean 4, of the algorithmic parts of the
github-editor-split-view browser extension, together with proofs about them.

Text is modelled as `List Char` (JavaScript strings are sequences of code
units; none of the verified code distinguishes code units from characters).
Every JavaScript string operation used by the source is embedded explicitly:
`jsSubstring` is ECMAScript `String.prototype.substring` (clamp both indices
to `[0, length]`, swap when out of order); `splitOnChar`, `joinWith`,
`mapIdxFrom`, `containsChar` embed `split`, `join`, `map((x, i) => ...)` and
`includes`.  Negative arguments to `substring` are clamped to `0` by
ECMAScript; the one call site that can produce a negative argument
(`unformatText`, `selectedText.length - suffix.length`) is embedded with
truncated natural subtraction, which agrees with that clamping.

DOM state (inline-style bookkeeping, node reparenting, editor discovery) and
the event-driven parts (in-flight fetch flag, debounce timers) are embedded
as explicit state types with step functions; DOM elements are node
identifiers (`Nat`).
-/

namespace GSV

/-- Text as a list of characters. -/
abbrev Str := List Char

/-- Convert a Lean string literal to the `List Char` text model. -/
def str (s : String) : Str := s.data

/-- ECMAScript `String.prototype.substring sʹ a b`: both indices are clamped
to `[0, s.length]` and swapped when `a > b`.  Clamping of negative inputs is
represented by the callers' truncated `Nat` subtraction. -/
def jsSubstring (s : Str) (a b : Nat) : Str :=
  let a' := min a s.length
  let b' := min b s.length
  (s.take (max a' b')).drop (min a' b')

/-- JavaScript `String.prototype.includes` for a single character. -/
def containsChar (c : Char) (s : Str) : Bool :=
  s.any (fun x => x == c)

/-- JavaScript `String.prototype.split` with a single-character separator:
`"".split(c) = [""]`, and separators delimit (possibly empty) fields. -/
def splitOnChar (c : Char) : Str → List Str
  | [] => [[]]
  | x :: xs =>
    match splitOnChar c xs, x == c with
    | r, true => [] :: r
    | [], false => [[x]]
    | y :: ys, false => (x :: y) :: ys

/-- JavaScript `Array.prototype.join` with a string separator. -/
def joinWith (sep : Str) : List Str → Str
  | [] => []
  | [x] => x
  | x :: y :: ys => x ++ sep ++ joinWith sep (y :: ys)

/-- JavaScript `Array.prototype.map((x, i) => ...)`, index starting at `i`. -/
def mapIdxFrom (f : Nat → Str → Str) : Nat → List Str → List Str
  | _, [] => []
  | i, x :: xs => f i x :: mapIdxFrom f (i + 1) xs

/-! ## `src/utils/getFormatSymbols.ts` -/

/-- The `FormatSymbols` interface: markdown symbols for one format type.
(`prefix` is a reserved word in Lean, so the fields are `pre` and `suf`.) -/
structure FormatSymbols where
  pre : Str
  suf : Str
  isMultilineFormat : Bool
deriving DecidableEq, Repr

/-- `getFormatSymbols` from `src/utils/getFormatSymbols.ts`: the switch over
the `FORMAT_TYPES` constants of `src/constants/formatTypes.ts`. -/
def getFormatSymbols (formatType : String) : FormatSymbols :=
  match formatType with
  | "heading" => ⟨str "### ", str "", false⟩
  | "bold" => ⟨str "**", str "**", false⟩
  | "italic" => ⟨str "_", str "_", false⟩
  | "quote" => ⟨str "> ", str "", true⟩
  | "code" => ⟨str "`", str "`", false⟩
  | "link" => ⟨str "[", str "](url)", false⟩
  | "ul" => ⟨str "- ", str "", true⟩
  | "ol" => ⟨str "1. ", str "", true⟩
  | "task" => ⟨str "- [ ] ", str "", true⟩
  | "mention" => ⟨str "@", str "", false⟩
  | "reference" => ⟨str "#", str "", false⟩
  | _ => ⟨str "", str "", false⟩

/-! ## `src/utils/formattingHelpers.ts` -/

/-- `shouldUnformat` from `src/utils/formattingHelpers.ts`. -/
def shouldUnformat (selectedText pre suf : Str) : Bool :=
  if selectedText.length = 0 then false
  else if 0 < pre.length ∧ 0 < suf.length then
    pre.isPrefixOf selectedText && suf.isSuffixOf selectedText
  else if 0 < pre.length ∧ suf.length = 0 then
    pre.isPrefixOf selectedText
  else false

/-- `unformatText` from `src/utils/formattingHelpers.ts`:
`selectedText.substring(prefix.length, selectedText.length - suffix.length)`. -/
def unformatText (selectedText pre suf : Str) : Str :=
  jsSubstring selectedText pre.length (selectedText.length - suf.length)

/-- `applyFormatting` from `src/utils/formattingHelpers.ts`.  The ordered-list
branch renders `index + 1` in decimal exactly as JavaScript template
interpolation of a small integer does. -/
def applyFormatting (selectedText : Str) (formatType : String)
    (pre suf : Str) (isMultilineFormat : Bool) : Str :=
  if selectedText.length = 0 then pre ++ suf
  else if containsChar '\n' selectedText && isMultilineFormat then
    if formatType = "ol" then
      joinWith (str "\n")
        (mapIdxFrom (fun i line => (Nat.repr (i + 1)).data ++ str ". " ++ line) 0
          (splitOnChar '\n' selectedText))
    else
      joinWith (str "\n")
        ((splitOnChar '\n' selectedText).map (fun line => pre ++ line))
  else pre ++ selectedText ++ suf

/-! ## `src/utils/getTextareaSelection.ts` and `src/utils/formatText.ts` -/

/-- A textarea's state: its `value` and the selection range.  The DOM
guarantees `0 ≤ selectionStart ≤ selectionEnd ≤ value.length`; theorems that
need that invariant assume it explicitly. -/
structure TextareaState where
  value : Str
  selectionStart : Nat
  selectionEnd : Nat
deriving DecidableEq, Repr

/-- The `TextareaSelection` record computed by `getTextareaSelection`.
(`end` is a reserved word in Lean, so the field is `finish`.) -/
structure TextareaSelection where
  selectedText : Str
  beforeText : Str
  afterText : Str
  start : Nat
  finish : Nat
deriving DecidableEq, Repr

/-- `getTextareaSelection` from `src/utils/getTextareaSelection.ts`.  The
source returns `null` only when the textarea DOM node itself is missing; a
value of type `TextareaState` always represents a present node, so the `null`
branch has no counterpart here.  `substring(end)` is `substring(end, length)`. -/
def getTextareaSelection (t : TextareaState) : TextareaSelection where
  selectedText := jsSubstring t.value t.selectionStart t.selectionEnd
  beforeText := jsSubstring t.value 0 t.selectionStart
  afterText := jsSubstring t.value t.selectionEnd t.value.length
  start := t.selectionStart
  finish := t.selectionEnd

/-- `formatText` from `src/utils/formatText.ts`, as a state transformer on the
textarea.  `triggerInputEvent` and `focus` are DOM notifications with no
effect on the textarea's value or selection and are not modelled. -/
def formatText (formatType : String) (t : TextareaState) : TextareaState :=
  let sel := getTextareaSelection t
  let fs := getFormatSymbols formatType
  if shouldUnformat sel.selectedText fs.pre fs.suf then
    let newSelectedText := unformatText sel.selectedText fs.pre fs.suf
    { value := sel.beforeText ++ newSelectedText ++ sel.afterText
      selectionStart := sel.start
      selectionEnd := sel.start + newSelectedText.length }
  else
    let replacement :=
      applyFormatting sel.selectedText formatType fs.pre fs.suf fs.isMultilineFormat
    { value := sel.beforeText ++ replacement ++ sel.afterText
      selectionStart :=
        if sel.selectedText.length = 0 then sel.start + fs.pre.length else sel.start
      selectionEnd :=
        if sel.selectedText.length = 0 then sel.start + fs.pre.length
        else sel.start + replacement.length }

/-- The replacement text `formatText` splices over the selection: the
unformat branch's `unformatText` or the format branch's `applyFormatting`. -/
def formattedSelection (formatType : String) (s : Str) : Str :=
  let fs := getFormatSymbols formatType
  if shouldUnformat s fs.pre fs.suf then unformatText s fs.pre fs.suf
  else applyFormatting s formatType fs.pre fs.suf fs.isMultilineFormat

/-- The toggle condition exactly as the specification claim words it (to be
compared with the source's `shouldUnformat`): either the format has a
non-empty markdown prefix and suffix and the selection starts with the prefix
and ends with the suffix, or it has only a non-empty prefix and the selection
starts with that prefix. -/
def claimToggleCond (s pre suf : Str) : Prop :=
  (pre ≠ [] ∧ suf ≠ [] ∧ pre <+: s ∧ suf <:+ s) ∨
  (pre ≠ [] ∧ suf = [] ∧ pre <+: s)

instance (s pre suf : Str) : Decidable (claimToggleCond s pre suf) := by
  unfold claimToggleCond
  infer_instance

/-! ## A JavaScript `Map` (insertion-ordered association list)

`useSplitMode` keeps `originalStyles : Map<HTMLElement, string>`; DOM
elements are node identifiers.  `Map.set` overwrites in place when the key is
present and appends otherwise; iteration follows insertion order. -/

/-- JavaScript `Map.prototype.set`. -/
def mapSet {κ σ : Type} [DecidableEq κ] : List (κ × σ) → κ → σ → List (κ × σ)
  | [], k, v => [(k, v)]
  | (k', v') :: rest, k, v =>
    if k' = k then (k, v) :: rest else (k', v') :: mapSet rest k v

/-- JavaScript `Map.prototype.get` (`none` for a missing key). -/
def mapGet {κ σ : Type} [DecidableEq κ] : List (κ × σ) → κ → Option σ
  | [], _ => none
  | (k', v) :: rest, k => if k' = k then some v else mapGet rest k

/-- The keys of a map, in insertion order. -/
def mapKeys {κ σ : Type} (m : List (κ × σ)) : List κ := m.map Prod.fst

/-- The exit-split-mode loop of `src/hooks/useSplitMode.ts` (lines 343-345):
`for (const [element, style] of map.entries()) element.setAttribute("style", style)`,
applied to an attribute assignment `dom : Nat → σ`. -/
def restoreAll {σ : Type} (saved : List (Nat × σ)) (dom : Nat → σ) : Nat → σ :=
  saved.foldl (fun d p => Function.update d p.1 p.2) dom

/-! ## `src/hooks/useSplitMode.ts`: style capture and restore (claim C3)

While split mode is active the hook interleaves two kinds of style actions:
`styles.set(el, el.getAttribute("style") || "")` (capture the current inline
style string) and mutations of `el.style` (`setProperty`, `removeProperty`,
direct assignment — all of which rewrite the element's style attribute).
`StyleOp` is that action alphabet; `SplitState` carries the per-element style
attribute and the `originalStyles` map. -/

inductive StyleOp where
  | capture (e : Nat)
  | mutate (e : Nat) (v : String)
deriving DecidableEq, Repr

structure SplitState where
  dom : Nat → String
  saved : List (Nat × String)

/-- One style action of the activation branch of `useSplitMode`. -/
def applyStyleOp (st : SplitState) : StyleOp → SplitState
  | .capture e => { st with saved := mapSet st.saved e (st.dom e) }
  | .mutate e v => { st with dom := Function.update st.dom e v }

/-- A whole activation: the sequence of style actions it performs. -/
def runStyleOps (st : SplitState) (ops : List StyleOp) : SplitState :=
  ops.foldl applyStyleOp st

/-- The deactivation branch of `useSplitMode` (lines 341-347): restore every
entry of the map into the DOM, then `originalStyles.current.clear()`. -/
def deactivateSplit (st : SplitState) : SplitState :=
  { dom := restoreAll st.saved st.dom, saved := [] }

/-- The capture-once-before-mutation discipline, relative to the elements
already captured (`caps`) and already mutated (`muts`): every element's style
string is captured before any mutation of that element, and captured only
once — exactly when the map holds each element's pre-modification inline
style string.  This is the discipline the modular `saveOriginalStyle` helper
of `splitModeHelpers` enforces with its `styles.has(element)` guard; the
activation of `src/hooks/useSplitMode.ts` does NOT always obey it — its
children loop captures and hides the preview area when it is a direct child
of the wrapper, and lines 157/229 then re-capture it with a plain overwriting
`styles.set` after the mutation (see the claim C3 theorem below). -/
def disciplinedFrom : List StyleOp → List Nat → List Nat → Prop
  | [], _, _ => True
  | StyleOp.capture e :: rest, caps, muts =>
    e ∉ caps ∧ e ∉ muts ∧ disciplinedFrom rest (e :: caps) muts
  | StyleOp.mutate e _ :: rest, caps, muts => disciplinedFrom rest caps (e :: muts)

/-- The capture-once-before-mutation discipline for a full trace starting
from a cleared map. -/
def disciplined (ops : List StyleOp) : Prop := disciplinedFrom ops [] []

/-! ## `src/hooks/useSplitMode.ts`: preview relocation (claim C4)

For claim C4 the DOM model also needs node parentage.  The inline style
attribute is modelled structurally, as the map from CSS property name to
value that `el.style.setProperty` maintains (the `"important"` priority flag
changes no control flow and is not represented).  `Dom.parentOf` is the
parent relation that `insertBefore` / `appendChild` rewrite. -/

structure Dom where
  parentOf : Nat → Option Nat
  styleOf : Nat → List (String × String)
  saved : List (Nat × List (String × String))

/-- `el.style.setProperty(p, v, "important")`. -/
def setProp (d : Dom) (e : Nat) (p v : String) : Dom :=
  { d with styleOf := Function.update d.styleOf e (mapSet (d.styleOf e) p v) }

/-- `styles.set(el, el.getAttribute("style") || "")` in the `Dom` model. -/
def captureStyle (d : Dom) (e : Nat) : Dom :=
  { d with saved := mapSet d.saved e (d.styleOf e) }

/-- `codemirror.insertBefore(previewArea, editorDiv.nextSibling)` /
`codemirror.appendChild(previewArea)`: either way the preview node's parent
becomes the CodeMirror container (sibling order is not needed by any claim). -/
def reparent (d : Dom) (child newParent : Nat) : Dom :=
  { d with parentOf := Function.update d.parentOf child (some newParent) }

/-- The README branch of the activation effect of `useSplitMode`
(`src/hooks/useSplitMode.ts` lines 84-177), for an instance where all five
regions were found.  `children` is `editorWrapper.children`;
`editorDivFound` is whether `div[aria-labelledby="codemirror-label"]` exists;
`editorHeight` abstracts the `calculateEditorHeight` viewport measurement. -/
def activateReadmeSplit (editorWrapper header writeArea previewArea
    readmeScrollContainer codemirror : Nat) (editorDivFound : Bool)
    (children : List Nat) (editorHeight : Nat) (d : Dom) : Dom :=
  let d := captureStyle d editorWrapper
  let d := children.foldl
    (fun d c =>
      if c ≠ writeArea ∧ c ≠ header then setProp (captureStyle d c) c "display" "none"
      else d) d
  let d := setProp (captureStyle d header) header "display" "flex"
  let d := captureStyle d readmeScrollContainer
  let d := setProp d readmeScrollContainer "height" (Nat.repr editorHeight ++ "px")
  let d := setProp d readmeScrollContainer "overflow" "auto"
  let d := setProp d writeArea "display" "block"
  let d := captureStyle d codemirror
  let d := setProp d codemirror "display" "grid"
  let d := setProp d codemirror "grid-template-columns" "50% 50%"
  let d := setProp d codemirror "height" "100%"
  let d := captureStyle d previewArea
  let d :=
    if editorDivFound ∧ d.parentOf previewArea ≠ some codemirror then
      reparent d previewArea codemirror
    else d
  let d := setProp d previewArea "display" "block"
  let d := setProp d previewArea "overflow-y" "auto"
  setProp d previewArea "height" "100%"

/-- The deactivation branch of `useSplitMode` (lines 341-347) in the `Dom`
model: restore every captured style attribute and clear the map.  This is the
whole exit effect — the source performs no node relocation on exit. -/
def deactivateDom (d : Dom) : Dom :=
  { parentOf := d.parentOf
    styleOf := restoreAll d.saved d.styleOf
    saved := [] }

/-! ## `src/hooks/useGitHubPreviewRefresh.ts`: the in-flight flag (claim C5)

`refreshPreview` is an `async` function on a single-threaded event loop: it
runs synchronously from invocation up to its first `await` (the early return,
the flag assignment and `extractCodeMirrorContent` all happen atomically),
suspends while the fetch is in flight, and on completion runs the `finally`
block, which clears the flag on success, on a missing-content early return
and on a thrown error alike.  `RefreshEvent` is the resulting event alphabet
and `RefreshState` tracks the flag plus the number of fetches in flight. -/

structure RefreshState where
  isRefreshing : Bool
  inFlight : Nat
deriving DecidableEq, Repr

inductive RefreshEvent where
  /-- An invocation of `refreshPreview` (from the debounced observer);
  `hasContent` is whether `extractCodeMirrorContent` returns non-null. -/
  | invoke (hasContent : Bool)
  /-- Completion of the in-flight fetch — resolution or rejection — followed
  by the `finally` block. -/
  | complete (ok : Bool)
deriving DecidableEq, Repr

/-- One event step of `refreshPreview` (`useGitHubPreviewRefresh.ts` lines
41-65).  `invoke` with the flag set returns at `if (isRefreshing) return`
without touching anything; `invoke` without content sets and synchronously
clears the flag (net: unchanged) and starts no fetch; otherwise the flag is
set and one fetch starts.  `complete` runs the `finally`, clearing the flag
whether the fetch succeeded or failed. -/
def refreshStep (st : RefreshState) : RefreshEvent → RefreshState
  | .invoke hasContent =>
    if st.isRefreshing then st
    else if hasContent then { isRefreshing := true, inFlight := st.inFlight + 1 }
    else st
  | .complete _ => { isRefreshing := false, inFlight := st.inFlight - 1 }

/-- The state of the refresher before the first event: flag clear, nothing in
flight (`let isRefreshing = false`). -/
def refreshInit : RefreshState := ⟨false, 0⟩

/-- A run of the refresher over a sequence of events. -/
def runRefresh (evs : List RefreshEvent) : RefreshState :=
  evs.foldl refreshStep refreshInit

/-- The mutual-exclusion invariant of the refresher: at most one fetch is in
flight, and one is in flight exactly while the flag is set. -/
def RefreshInv (st : RefreshState) : Prop :=
  st.inFlight ≤ 1 ∧ (st.isRefreshing = true ↔ st.inFlight = 1)

/-! ## `src/utils/githubApiHelpers.ts` (claim C6) -/

/-- The `payload.editInfo` object of the embedded React payload; each field
may be absent. -/
structure EditInfo where
  previewEditPath : Option String
  fileName : Option String
deriving DecidableEq, Repr

/-- The `payload.refInfo` object. -/
structure RefInfo where
  currentOid : Option String
deriving DecidableEq, Repr

/-- The parsed `GitHubPayload`: `payload` and each of its members may be
absent; `csrf_tokens` maps a path to an object whose `post` field may be
absent. -/
structure GitHubPayload where
  editInfo : Option EditInfo
  refInfo : Option RefInfo
  csrfTokens : Option (List (String × Option String))
deriving DecidableEq, Repr

/-- The `GitHubData` result record of `extractGitHubData`. -/
structure GitHubData where
  previewUrl : Option String
  commitOid : Option String
  fileName : Option String
  authenticityToken : Option String
deriving DecidableEq, Repr

/-- The page state `extractGitHubData` reads: `reactAppScript` is `none` when
`document.querySelector` finds no payload script, `some none` when the script
is present but `JSON.parse` throws, and `some (some p)` when it parses with
`payload` equal to `p.payload`; `tokenInput` is the value of the hidden
`authenticity_token` input when present. -/
structure PageState where
  reactAppScript : Option (Option (Option GitHubPayload))
  tokenInput : Option String
deriving DecidableEq, Repr

/-- JavaScript `x || null` on an optional string: the empty string is falsy
and collapses to `null`. -/
def orNull (s : Option String) : Option String :=
  match s with
  | some v => if v = "" then none else some v
  | none => none

/-- `extractGitHubData` from `src/utils/githubApiHelpers.ts` (lines 30-70).
The function is total — in the source every failure path is caught and
yields `null` fields.  When `JSON.parse` throws, the `catch` skips the rest
of the `try` block, including the hidden-input token fallback. -/
def extractGitHubData (pg : PageState) : GitHubData :=
  match pg.reactAppScript with
  | none => ⟨none, none, none, none⟩
  | some none => ⟨none, none, none, none⟩
  | some (some payload?) =>
    let editInfo := payload?.bind (·.editInfo)
    let refInfo := payload?.bind (·.refInfo)
    let csrfTokens := payload?.bind (·.csrfTokens)
    let previewUrl := orNull (editInfo.bind (·.previewEditPath))
    let commitOid := orNull (refInfo.bind (·.currentOid))
    let fileName := orNull (editInfo.bind (·.fileName))
    let tokenFromMap :=
      match csrfTokens, previewUrl with
      | some m, some u => orNull ((mapGet m u).bind id)
      | _, _ => none
    let authenticityToken :=
      match tokenFromMap with
      | some t => some t
      | none => orNull pg.tokenInput
    ⟨previewUrl, commitOid, fileName, authenticityToken⟩

/-- The response `fetchPreview` receives: `ok` is `response.ok` and
`dataField` is the `data` member of the parsed JSON body (`none` when
absent), holding the optional `html` field. -/
structure PreviewResponse where
  ok : Bool
  dataField : Option (Option String)
deriving DecidableEq, Repr

/-- `fetchPreview` from `src/utils/githubApiHelpers.ts` (lines 88-120),
from the response on: `if (!response.ok) return null` and
`return data?.html ? data : null` — the result carries the rendered `html`
exactly when the response is ok and the body has a truthy `html` field. -/
def fetchPreview (resp : PreviewResponse) : Option String :=
  if resp.ok = false then none
  else orNull (resp.dataField.bind (fun o => o))

/-- The guard of `useGitHubPreviewRefresh` (lines 29-36): with any of the
four extracted data null the hook returns before creating the observer, the
timer or the refresh closure — `none` means the feature does not activate
and no state is created or changed for that editor instance. -/
def previewRefreshSetup (d : GitHubData) : Option (String × String × String × String) :=
  match d.previewUrl, d.commitOid, d.fileName, d.authenticityToken with
  | some u, some c, some f, some t => some (u, c, f, t)
  | _, _, _, _ => none

/-! ## Editor discovery (`src/unnamed/part_014`, claim C7) -/

/-- One editor wrapper as discovery sees it: whether it matches the base CSS
selectors of `EDITOR_WRAPPER_SELECTORS` (without the
`:not([data-split-view-initialized="true"])` part), whether a tab container
is found inside it, the `data-split-view-initialized` marker, and how many
times a control UI has been injected into it. -/
structure Wrapper where
  matchesBase : Bool
  hasTab : Bool
  initialized : Bool
  injections : Nat
deriving DecidableEq, Repr

/-- The per-wrapper body of `initializeSplitView` (`src/unnamed/part_014`
lines 15-88): the wrapper is visited only if it matches the selector list —
which excludes marked wrappers — then skipped on the explicit
`dataset.splitViewInitialized === "true"` check, then marked, and only then
is the React control UI injected (when a tab container is found). -/
def processWrapper (w : Wrapper) : Wrapper :=
  if w.matchesBase && !w.initialized then
    if w.initialized then w
    else
      let w' : Wrapper := { w with initialized := true }
      if w'.hasTab then { w' with injections := w'.injections + 1 } else w'
  else w

/-- One full `initializeSplitView` scan over the document
(`document.querySelectorAll(EDITOR_WRAPPER_SELECTORS).forEach(...)`). -/
def initSplitView (ws : List Wrapper) : List Wrapper :=
  ws.map processWrapper

/-! ## Debounce timers (claims C8)

Both debounced activities — the preview refresher
(`useGitHubPreviewRefresh.ts` lines 67-71) and editor discovery
(`src/unnamed/part_014` lines 124-127) — run
`clearTimeout(pending); pending = setTimeout(callback, delay)` on every
triggering event.  `DebounceState.active` is the set of scheduled,
uncancelled, unfired timers; `last` is the variable holding the most recent
timer id; `next` is the id `setTimeout` returns next. -/

structure DebounceState where
  active : List Nat
  last : Option Nat
  next : Nat
deriving DecidableEq, Repr

inductive DebounceEvent where
  /-- A triggering event (a content mutation, or a matching DOM addition):
  `clearTimeout(pending)` then `pending = setTimeout(...)`. -/
  | trigger
  /-- The timer with identifier `id` reaching its deadline; its callback runs
  only if it has not been cancelled. -/
  | fire (id : Nat)
deriving DecidableEq, Repr

/-- Whether the timer `id` would run its callback on reaching its deadline. -/
def timerLive (s : DebounceState) (id : Nat) : Bool :=
  s.active.contains id

/-- One step of the debounce protocol. -/
def debounceStep (s : DebounceState) : DebounceEvent → DebounceState
  | .trigger =>
    let cleared := match s.last with
      | none => s.active
      | some i => s.active.erase i
    { active := s.next :: cleared, last := some s.next, next := s.next + 1 }
  | .fire id =>
    if s.active.contains id then { s with active := s.active.erase id } else s

/-- Before any event: no timer scheduled, the timer variable unset. -/
def debounceInit : DebounceState := ⟨[], none, 0⟩

/-- A run of the debounce protocol over a sequence of events. -/
def runDebounce (evs : List DebounceEvent) : DebounceState :=
  evs.foldl debounceStep debounceInit

/-- The debounce invariant: either no timer is pending, or exactly the one
held by the timer variable is. -/
def DebounceInv (s : DebounceState) : Prop :=
  s.active = [] ∨ ∃ i, s.last = some i ∧ s.active = [i]

/-! ## Helper lemmas: JavaScript string operations -/

theorem jsSubstring_of_le (s : Str) (a b : Nat) (h1 : a ≤ b) (h2 : b ≤ s.length) :
    jsSubstring s a b = (s.take b).drop a := by
  simp only [jsSubstring]
  rw [Nat.min_eq_left (le_trans h1 h2), Nat.min_eq_left h2,
    Nat.max_eq_right h1, Nat.min_eq_left h1]

theorem take_drop_middle_eq (v : Str) (a b : Nat) (h1 : a ≤ b) (_h2 : b ≤ v.length) :
    v.take a ++ ((v.take b).drop a) ++ v.drop b = v := by
  have h3 : (v.take b).take a = v.take a := by
    rw [List.take_take, Nat.min_eq_left h1]
  rw [← h3, List.take_append_drop, List.take_append_drop]

/-- `unformatText` really strips the markdown symbols: on any selection that
decomposes as symbol, middle, symbol it returns the middle. -/
theorem unformatText_append (p m q : Str) : unformatText (p ++ m ++ q) p q = m := by
  unfold unformatText
  have h2 : (p ++ m ++ q).length - q.length = p.length + m.length := by
    simp only [List.length_append]; omega
  rw [h2, jsSubstring_of_le _ _ _ (Nat.le_add_right _ _)
    (by simp only [List.length_append]; omega)]
  have h4 : (p ++ m ++ q).take (p.length + m.length) = p ++ m :=
    List.take_left' (by simp)
  rw [h4]
  exact List.drop_left p m

/-- The source's `shouldUnformat` test coincides, for non-empty selections,
with the toggle condition as the claim words it. -/
theorem shouldUnformat_iff (s p q : Str) (hs : s ≠ []) :
    shouldUnformat s p q = true ↔ claimToggleCond s p q := by
  have hlen : ¬ s.length = 0 := fun h => hs (List.length_eq_zero.mp h)
  unfold shouldUnformat claimToggleCond
  by_cases hp : 0 < p.length <;> by_cases hq : 0 < q.length <;>
    simp_all [List.isPrefixOf_iff_prefix, List.isSuffixOf_iff_suffix,
      List.length_pos, List.length_eq_zero]

/-- A freshly wrapped selection passes the toggle test whenever the format
has a non-empty markdown prefix. -/
theorem shouldUnformat_wrapped (p s q : Str) (hp : p ≠ []) :
    shouldUnformat (p ++ s ++ q) p q = true := by
  have hp0 : 0 < p.length := List.length_pos.mpr hp
  have hlen : ¬ (p ++ s ++ q).length = 0 := by
    simp only [List.length_append]; omega
  unfold shouldUnformat
  rw [if_neg hlen]
  by_cases hq : 0 < q.length
  · rw [if_pos ⟨hp0, hq⟩]
    simp only [Bool.and_eq_true, List.isPrefixOf_iff_prefix, List.isSuffixOf_iff_suffix]
    constructor
    · rw [List.append_assoc]
      exact List.prefix_append p (s ++ q)
    · exact List.suffix_append (p ++ s) q
  · have hq0 : q.length = 0 := Nat.eq_zero_of_not_pos hq
    rw [if_neg (fun h => hq h.2), if_pos ⟨hp0, hq0⟩]
    simp only [List.isPrefixOf_iff_prefix]
    rw [List.append_assoc]
    exact List.prefix_append p (s ++ q)

/-- On a non-empty selection without newlines, `applyFormatting` wraps the
selection with the format's symbols, for every format. -/
theorem applyFormatting_single_line (s : Str) (ft : String) (p q : Str) (ml : Bool)
    (h0 : s ≠ []) (h1 : containsChar '\n' s = false) :
    applyFormatting s ft p q ml = p ++ s ++ q := by
  have hlen : ¬ s.length = 0 := fun h => h0 (List.length_eq_zero.mp h)
  unfold applyFormatting
  rw [if_neg hlen, h1]
  simp

theorem shouldUnformat_empty_pre (s q : Str) : shouldUnformat s [] q = false := by
  unfold shouldUnformat
  simp

theorem mapIdxFrom_shift (f : Nat → Str → Str) :
    ∀ (n : Nat) (l : List Str),
      mapIdxFrom (fun i line => f (i + 1) line) n l = mapIdxFrom f (n + 1) l := by
  intro n l
  induction l generalizing n with
  | nil => rfl
  | cons x xs ih => simp [mapIdxFrom, ih]

/-- Zero-based numbering by `index + 1` is one-based line numbering. -/
theorem mapIdxFrom_one (f : Nat → Str → Str) (l : List Str) :
    mapIdxFrom (fun i line => f (i + 1) line) 0 l = mapIdxFrom f 1 l :=
  mapIdxFrom_shift f 0 l

theorem containsChar_ne_nil (c : Char) (s : Str) (h : containsChar c s = true) :
    s ≠ [] := by
  intro he
  subst he
  simp [containsChar] at h

/-- The only format type with an empty markdown prefix is the default case,
which has no symbols at all and is not a multiline format. -/
theorem getFormatSymbols_pre_nil (ft : String)
    (h : (getFormatSymbols ft).pre = []) : getFormatSymbols ft = ⟨[], [], false⟩ := by
  unfold getFormatSymbols at *
  split at h <;> first | rfl | exact absurd h (by decide)

/-- `formatText` always splices `formattedSelection` over the selected
region, leaving the text before and after the selection untouched. -/
theorem formatText_value (ft : String) (t : TextareaState) :
    (formatText ft t).value =
      (getTextareaSelection t).beforeText ++
        formattedSelection ft (getTextareaSelection t).selectedText ++
        (getTextareaSelection t).afterText := by
  unfold formatText formattedSelection
  by_cases hU : shouldUnformat (getTextareaSelection t).selectedText
      (getFormatSymbols ft).pre (getFormatSymbols ft).suf
  · simp [hU]
  · simp [hU]

/-- With no markdown symbols at all, the spliced replacement is the selection
itself. -/
theorem formattedSelection_no_symbols (ft : String) (s : Str)
    (hfs : getFormatSymbols ft = ⟨[], [], false⟩) : formattedSelection ft s = s := by
  unfold formattedSelection
  rw [hfs]
  simp only [shouldUnformat_empty_pre, Bool.false_eq_true, if_false]
  unfold applyFormatting
  by_cases hse : s.length = 0
  · simp [hse, List.length_eq_zero.mp hse]
  · simp [hse]

/-! ## Claim theorems: the manual formatter (C1, C2, C9, C10) -/

/-- Claim C1: for every non-empty selected text and every format type, the
manual formatter is a toggle decided by naive prefix/suffix matching — when
the format has a non-empty prefix and suffix and the selection starts with
the prefix and ends with the suffix, or has only a non-empty prefix and the
selection starts with it (`claimToggleCond`), the selection is unwrapped (the
prefix and suffix are stripped: on any selection of shape
`pre ++ m ++ suf` the spliced text is `m`); in every other case the selection
is wrapped with the format's markdown symbols by `applyFormatting`. -/
theorem C1_manualFormatter_toggle (ft : String) (t : TextareaState)
    (hs : (getTextareaSelection t).selectedText ≠ []) :
    (claimToggleCond (getTextareaSelection t).selectedText
        (getFormatSymbols ft).pre (getFormatSymbols ft).suf →
      (formatText ft t).value =
        (getTextareaSelection t).beforeText ++
          unformatText (getTextareaSelection t).selectedText
            (getFormatSymbols ft).pre (getFormatSymbols ft).suf ++
          (getTextareaSelection t).afterText ∧
      ∀ m, (getTextareaSelection t).selectedText =
          (getFormatSymbols ft).pre ++ m ++ (getFormatSymbols ft).suf →
        unformatText (getTextareaSelection t).selectedText
          (getFormatSymbols ft).pre (getFormatSymbols ft).suf = m) ∧
    (¬ claimToggleCond (getTextareaSelection t).selectedText
        (getFormatSymbols ft).pre (getFormatSymbols ft).suf →
      (formatText ft t).value =
        (getTextareaSelection t).beforeText ++
          applyFormatting (getTextareaSelection t).selectedText ft
            (getFormatSymbols ft).pre (getFormatSymbols ft).suf
            (getFormatSymbols ft).isMultilineFormat ++
          (getTextareaSelection t).afterText) := by
  constructor
  · intro hc
    have hU : shouldUnformat (getTextareaSelection t).selectedText
        (getFormatSymbols ft).pre (getFormatSymbols ft).suf = true :=
      (shouldUnformat_iff _ _ _ hs).mpr hc
    constructor
    · simp [formatText, hU]
    · intro m hm
      rw [hm]
      exact unformatText_append _ _ _
  · intro hc
    have hU : shouldUnformat (getTextareaSelection t).selectedText
        (getFormatSymbols ft).pre (getFormatSymbols ft).suf = false := by
      rw [Bool.eq_false_iff]
      intro h
      exact hc ((shouldUnformat_iff _ _ _ hs).mp h)
    simp [formatText, hU]

/-- Witness for C1 at a concrete input: selection `**hi**` of `x**hi**y`
with the bold format satisfies the toggle condition and is unwrapped. -/
theorem C1_manualFormatter_toggle_witness :
    (getTextareaSelection ⟨str "x**hi**y", 1, 7⟩).selectedText ≠ [] ∧
    (formatText "bold" ⟨str "x**hi**y", 1, 7⟩).value =
      (getTextareaSelection ⟨str "x**hi**y", 1, 7⟩).beforeText ++
        unformatText (getTextareaSelection ⟨str "x**hi**y", 1, 7⟩).selectedText
          (getFormatSymbols "bold").pre (getFormatSymbols "bold").suf ++
        (getTextareaSelection ⟨str "x**hi**y", 1, 7⟩).afterText :=
  ⟨by decide,
    ((C1_manualFormatter_toggle "bold" ⟨str "x**hi**y", 1, 7⟩ (by decide)).1
      (by decide)).1⟩

/-- Claim C2: a multi-newline selection that does not already start with the
ordered-list prefix is, under the ordered-list format, split on newlines,
line `i` (1-based) replaced by the decimal numeral of `i` followed by
`". "` and the line, and re-joined with newlines. -/
theorem C2_orderedList_renumbering (t : TextareaState)
    (h1 : containsChar '\n' (getTextareaSelection t).selectedText = true)
    (h2 : (str "1. ").isPrefixOf (getTextareaSelection t).selectedText = false) :
    (formatText "ol" t).value =
      (getTextareaSelection t).beforeText ++
        joinWith (str "\n")
          (mapIdxFrom (fun i line => (Nat.repr i).data ++ str ". " ++ line) 1
            (splitOnChar '\n' (getTextareaSelection t).selectedText)) ++
        (getTextareaSelection t).afterText := by
  have hs : (getTextareaSelection t).selectedText ≠ [] := containsChar_ne_nil _ _ h1
  have hlen : ¬ (getTextareaSelection t).selectedText.length = 0 :=
    fun h => hs (List.length_eq_zero.mp h)
  have hU : shouldUnformat (getTextareaSelection t).selectedText
      (getFormatSymbols "ol").pre (getFormatSymbols "ol").suf = false := by
    unfold shouldUnformat getFormatSymbols
    rw [if_neg hlen]
    simp only [str]
    rw [if_neg (by simp), if_pos (by simp)]
    exact h2
  have happ : applyFormatting (getTextareaSelection t).selectedText "ol"
      (getFormatSymbols "ol").pre (getFormatSymbols "ol").suf
      (getFormatSymbols "ol").isMultilineFormat =
      joinWith (str "\n")
        (mapIdxFrom (fun i line => (Nat.repr i).data ++ str ". " ++ line) 1
          (splitOnChar '\n' (getTextareaSelection t).selectedText)) := by
    unfold applyFormatting
    rw [if_neg hlen, h1]
    simp only [getFormatSymbols, Bool.and_true, if_true]
    exact congrArg (joinWith (str "\n"))
      (mapIdxFrom_one (fun i line => (Nat.repr i).data ++ str ". " ++ line)
        (splitOnChar '\n' (getTextareaSelection t).selectedText))
  simp [formatText, hU, happ]

/-- Witness for C2 at a concrete input: the selection `a`, newline, `b` is
renumbered to `1. a`, newline, `2. b`. -/
theorem C2_orderedList_renumbering_witness :
    containsChar '\n' (getTextareaSelection ⟨str "a\nb", 0, 3⟩).selectedText = true ∧
    (str "1. ").isPrefixOf (getTextareaSelection ⟨str "a\nb", 0, 3⟩).selectedText = false ∧
    (formatText "ol" ⟨str "a\nb", 0, 3⟩).value =
      (getTextareaSelection ⟨str "a\nb", 0, 3⟩).beforeText ++
        joinWith (str "\n")
          (mapIdxFrom (fun i line => (Nat.repr i).data ++ str ". " ++ line) 1
            (splitOnChar '\n' (getTextareaSelection ⟨str "a\nb", 0, 3⟩).selectedText)) ++
        (getTextareaSelection ⟨str "a\nb", 0, 3⟩).afterText :=
  ⟨by decide, by decide,
    C2_orderedList_renumbering ⟨str "a\nb", 0, 3⟩ (by decide) (by decide)⟩

/-- Claim C9: on a non-empty, newline-free selection that does not already
pass the toggle test, formatting wraps (`pre ++ s ++ suf`), the wrapped text
passes the toggle test whenever the format's prefix is non-empty, and
unformatting the wrapped text returns exactly the original selection. -/
theorem C9_format_unformat_roundtrip (ft : String) (s : Str) (h0 : s ≠ [])
    (h1 : containsChar '\n' s = false)
    (_h2 : shouldUnformat s (getFormatSymbols ft).pre (getFormatSymbols ft).suf = false) :
    applyFormatting s ft (getFormatSymbols ft).pre (getFormatSymbols ft).suf
        (getFormatSymbols ft).isMultilineFormat =
      (getFormatSymbols ft).pre ++ s ++ (getFormatSymbols ft).suf ∧
    ((getFormatSymbols ft).pre ≠ [] →
      shouldUnformat ((getFormatSymbols ft).pre ++ s ++ (getFormatSymbols ft).suf)
        (getFormatSymbols ft).pre (getFormatSymbols ft).suf = true) ∧
    unformatText ((getFormatSymbols ft).pre ++ s ++ (getFormatSymbols ft).suf)
      (getFormatSymbols ft).pre (getFormatSymbols ft).suf = s := by
  refine ⟨applyFormatting_single_line s ft _ _ _ h0 h1, ?_, unformatText_append _ _ _⟩
  intro hp
  exact shouldUnformat_wrapped _ _ _ hp

/-- Witness for C9 at a concrete input: the bold round trip on `hi`. -/
theorem C9_format_unformat_roundtrip_witness :
    (str "hi" ≠ []) ∧
    applyFormatting (str "hi") "bold" (getFormatSymbols "bold").pre
        (getFormatSymbols "bold").suf (getFormatSymbols "bold").isMultilineFormat =
      (getFormatSymbols "bold").pre ++ str "hi" ++ (getFormatSymbols "bold").suf ∧
    unformatText ((getFormatSymbols "bold").pre ++ str "hi" ++ (getFormatSymbols "bold").suf)
      (getFormatSymbols "bold").pre (getFormatSymbols "bold").suf = str "hi" :=
  ⟨by decide,
    (C9_format_unformat_roundtrip "bold" (str "hi") (by decide) (by decide) (by decide)).1,
    (C9_format_unformat_roundtrip "bold" (str "hi") (by decide) (by decide) (by decide)).2.2⟩

/-- Claim C10: `formatText` only rewrites the selected region — for a valid
selection the new value is the text before the selection start, then the
(un)formatted selection, then the text from the selection end on; and a
format type with no symbols leaves the whole value unchanged. -/
theorem C10_formatText_frame (ft : String) (t : TextareaState)
    (h1 : t.selectionStart ≤ t.selectionEnd) (h2 : t.selectionEnd ≤ t.value.length) :
    (formatText ft t).value =
      t.value.take t.selectionStart ++
        formattedSelection ft ((t.value.take t.selectionEnd).drop t.selectionStart) ++
        t.value.drop t.selectionEnd ∧
    ((getFormatSymbols ft).pre = [] → (getFormatSymbols ft).suf = [] →
      (formatText ft t).value = t.value) := by
  have hb : (getTextareaSelection t).beforeText = t.value.take t.selectionStart := by
    simp only [getTextareaSelection]
    rw [jsSubstring_of_le _ _ _ (Nat.zero_le _) (le_trans h1 h2), List.drop_zero]
  have ha : (getTextareaSelection t).afterText = t.value.drop t.selectionEnd := by
    simp only [getTextareaSelection]
    rw [jsSubstring_of_le _ _ _ h2 (le_refl _), List.take_length]
  have hsel : (getTextareaSelection t).selectedText =
      (t.value.take t.selectionEnd).drop t.selectionStart := by
    simp only [getTextareaSelection]
    rw [jsSubstring_of_le _ _ _ h1 h2]
  have hval := formatText_value ft t
  constructor
  · rw [hval, hb, ha, hsel]
  · intro hpre _hsuf
    have hfs : getFormatSymbols ft = ⟨[], [], false⟩ := getFormatSymbols_pre_nil ft hpre
    rw [hval, hb, ha, hsel, formattedSelection_no_symbols ft _ hfs]
    exact take_drop_middle_eq _ _ _ h1 h2

/-- Witness for C10 at a concrete input: bolding the middle of `abcd`
rewrites only the selected region, and the unknown format type leaves the
value unchanged. -/
theorem C10_formatText_frame_witness :
    (1 ≤ 3 ∧ 3 ≤ (str "abcd").length) ∧
    (formatText "bold" ⟨str "abcd", 1, 3⟩).value =
      (str "abcd").take 1 ++
        formattedSelection "bold" (((str "abcd").take 3).drop 1) ++
        (str "abcd").drop 3 ∧
    (formatText "zzz" ⟨str "abcd", 1, 3⟩).value = str "abcd" :=
  ⟨⟨by decide, by decide⟩,
    (C10_formatText_frame "bold" ⟨str "abcd", 1, 3⟩ (by decide) (by decide)).1,
    (C10_formatText_frame "zzz" ⟨str "abcd", 1, 3⟩ (by decide) (by decide)).2
      (by decide) (by decide)⟩


/-! ## Helper lemmas: the JavaScript `Map` and the restore loop -/

theorem mapSet_nil {κ σ : Type} [DecidableEq κ] (k : κ) (v : σ) :
    mapSet ([] : List (κ × σ)) k v = [(k, v)] := rfl

theorem mapSet_cons_pos {κ σ : Type} [DecidableEq κ] (ka k : κ) (va v : σ)
    (rest : List (κ × σ)) (h : ka = k) :
    mapSet ((ka, va) :: rest) k v = (k, v) :: rest := by
  simp [mapSet, h]

theorem mapSet_cons_neg {κ σ : Type} [DecidableEq κ] (ka k : κ) (va v : σ)
    (rest : List (κ × σ)) (h : ¬ ka = k) :
    mapSet ((ka, va) :: rest) k v = (ka, va) :: mapSet rest k v := by
  simp [mapSet, h]

theorem mapGet_cons_pos {κ σ : Type} [DecidableEq κ] (ka k : κ) (va : σ)
    (rest : List (κ × σ)) (h : ka = k) :
    mapGet ((ka, va) :: rest) k = some va := by
  simp [mapGet, h]

theorem mapGet_cons_neg {κ σ : Type} [DecidableEq κ] (ka k : κ) (va : σ)
    (rest : List (κ × σ)) (h : ¬ ka = k) :
    mapGet ((ka, va) :: rest) k = mapGet rest k := by
  simp [mapGet, h]

theorem mapGet_mapSet_self {κ σ : Type} [DecidableEq κ] (m : List (κ × σ)) (k : κ) (v : σ) :
    mapGet (mapSet m k v) k = some v := by
  induction m with
  | nil => simp [mapSet, mapGet]
  | cons p rest ih =>
    obtain ⟨ka, va⟩ := p
    by_cases h : ka = k
    · rw [mapSet_cons_pos ka k va v rest h, mapGet_cons_pos k k v rest rfl]
    · rw [mapSet_cons_neg ka k va v rest h, mapGet_cons_neg ka k va _ h]
      exact ih

theorem mapGet_mapSet_ne {κ σ : Type} [DecidableEq κ] (m : List (κ × σ)) (k k' : κ) (v : σ)
    (h : k' ≠ k) : mapGet (mapSet m k v) k' = mapGet m k' := by
  induction m with
  | nil =>
    rw [mapSet_nil, mapGet_cons_neg k k' v [] (fun he => h he.symm)]
  | cons p rest ih =>
    obtain ⟨ka, va⟩ := p
    by_cases hk : ka = k
    · rw [mapSet_cons_pos ka k va v rest hk, mapGet_cons_neg k k' v rest (fun he => h he.symm),
        mapGet_cons_neg ka k' va rest (fun he => h (hk ▸ he).symm)]
    · rw [mapSet_cons_neg ka k va v rest hk]
      by_cases hk' : ka = k'
      · rw [mapGet_cons_pos ka k' va _ hk', mapGet_cons_pos ka k' va rest hk']
      · rw [mapGet_cons_neg ka k' va _ hk', mapGet_cons_neg ka k' va rest hk']
        exact ih

theorem mem_mapKeys_mapSet {κ σ : Type} [DecidableEq κ] (m : List (κ × σ)) (k a : κ) (v : σ) :
    a ∈ mapKeys (mapSet m k v) ↔ a ∈ mapKeys m ∨ a = k := by
  induction m with
  | nil => simp [mapSet, mapKeys]
  | cons p rest ih =>
    obtain ⟨ka, va⟩ := p
    by_cases hk : ka = k
    · subst hk
      rw [mapSet_cons_pos ka ka va v rest rfl]
      simp only [mapKeys, List.map_cons, List.mem_cons]
      tauto
    · rw [mapSet_cons_neg ka k va v rest hk]
      simp only [mapKeys, List.map_cons, List.mem_cons] at *
      tauto

theorem nodup_mapKeys_mapSet {κ σ : Type} [DecidableEq κ] (m : List (κ × σ)) (k : κ) (v : σ)
    (h : (mapKeys m).Nodup) : (mapKeys (mapSet m k v)).Nodup := by
  induction m with
  | nil => simp [mapSet, mapKeys]
  | cons p rest ih =>
    obtain ⟨ka, va⟩ := p
    simp only [mapKeys, List.map_cons, List.nodup_cons] at h
    by_cases hk : ka = k
    · subst hk
      rw [mapSet_cons_pos ka ka va v rest rfl]
      simp only [mapKeys, List.map_cons, List.nodup_cons]
      exact h
    · rw [mapSet_cons_neg ka k va v rest hk]
      simp only [mapKeys, List.map_cons, List.nodup_cons]
      constructor
      · intro hmem
        rcases (mem_mapKeys_mapSet rest k ka v).mp hmem with h1 | h1
        · exact h.1 h1
        · exact hk h1
      · exact ih h.2

theorem mapGet_isSome_mapSet {κ σ : Type} [DecidableEq κ] (m : List (κ × σ)) (k a : κ) (v : σ)
    (h : (mapGet m a).isSome = true) : (mapGet (mapSet m k v) a).isSome = true := by
  by_cases ha : a = k
  · subst ha
    rw [mapGet_mapSet_self]
    rfl
  · rw [mapGet_mapSet_ne m k a v ha]
    exact h

theorem restoreAll_cons {σ : Type} (ka : Nat) (va : σ) (rest : List (Nat × σ))
    (dom : Nat → σ) :
    restoreAll ((ka, va) :: rest) dom = restoreAll rest (Function.update dom ka va) := rfl

theorem restoreAll_not_mem {σ : Type} (saved : List (Nat × σ)) (dom : Nat → σ) (k : Nat)
    (h : k ∉ mapKeys saved) : restoreAll saved dom k = dom k := by
  induction saved generalizing dom with
  | nil => rfl
  | cons p rest ih =>
    obtain ⟨ka, va⟩ := p
    simp only [mapKeys, List.map_cons, List.mem_cons, not_or] at h
    rw [restoreAll_cons, ih (Function.update dom ka va) (by
      intro hm
      exact h.2 hm)]
    exact Function.update_noteq h.1 va dom

theorem restoreAll_get {σ : Type} (saved : List (Nat × σ)) (dom : Nat → σ) (k : Nat) (v : σ)
    (hn : (mapKeys saved).Nodup) (hg : mapGet saved k = some v) :
    restoreAll saved dom k = v := by
  induction saved generalizing dom with
  | nil => simp [mapGet] at hg
  | cons p rest ih =>
    obtain ⟨ka, va⟩ := p
    simp only [mapKeys, List.map_cons, List.nodup_cons] at hn
    by_cases hk : ka = k
    · subst hk
      rw [mapGet_cons_pos ka ka va rest rfl, Option.some_inj] at hg
      subst hg
      rw [restoreAll_cons, restoreAll_not_mem rest _ ka hn.1]
      exact Function.update_same ka va dom
    · rw [mapGet_cons_neg ka k va rest hk] at hg
      rw [restoreAll_cons]
      exact ih (Function.update dom ka va) hn.2 hg

/-! ## Style capture and restore (claim C3)

Restore-to-original holds exactly for traces obeying the
capture-once-before-mutation discipline (`captureOnce_restore_identity`
below).  The activation of `src/hooks/useSplitMode.ts` breaks that
discipline for the preview area: the children loop (lines 93-99) captures
every direct child other than the write area and the header and hides it
with `display: none !important`; lines 157/229 then call
`styles.set(previewArea, previewArea.getAttribute("style") || "")` again —
a plain overwriting `Map.set` — after that mutation, so the map ends up
holding the post-`display:none` string, and deactivation restores that
instead of the pre-modification style.  `C3_doubleCapture_restores_mutated_style`
evaluates both the op trace the source performs on the preview element and
the fully embedded README activation at such an instance. -/

theorem runStyleOps_aux (dom0 : Nat → String) :
    ∀ (ops : List StyleOp) (st : SplitState) (caps muts : List Nat),
      (∀ e, e ∈ caps ↔ (mapGet st.saved e).isSome = true) →
      (∀ e v, mapGet st.saved e = some v → v = dom0 e) →
      (∀ e, e ∉ muts → st.dom e = dom0 e) →
      (mapKeys st.saved).Nodup →
      disciplinedFrom ops caps muts →
      (∀ e v, mapGet (runStyleOps st ops).saved e = some v → v = dom0 e) ∧
      (mapKeys (runStyleOps st ops).saved).Nodup ∧
      (∀ e, StyleOp.capture e ∈ ops → (mapGet (runStyleOps st ops).saved e).isSome = true) ∧
      (∀ e, (mapGet st.saved e).isSome = true →
        (mapGet (runStyleOps st ops).saved e).isSome = true) := by
  intro ops
  induction ops with
  | nil =>
    intro st caps muts _ h2 _ h4 _
    exact ⟨h2, h4, by simp, fun e h => h⟩
  | cons op rest ih =>
    intro st caps muts h1 h2 h3 h4 hd
    cases op with
    | capture e =>
      obtain ⟨hc1, hc2, hc3⟩ := hd
      have hdome : st.dom e = dom0 e := h3 e hc2
      have hstep : runStyleOps st (StyleOp.capture e :: rest) =
          runStyleOps (applyStyleOp st (StyleOp.capture e)) rest := rfl
      have hsaved : (applyStyleOp st (StyleOp.capture e)).saved =
          mapSet st.saved e (st.dom e) := rfl
      have h1' : ∀ a, a ∈ (e :: caps) ↔
          (mapGet (applyStyleOp st (StyleOp.capture e)).saved a).isSome = true := by
        intro a
        rw [hsaved]
        by_cases ha : a = e
        · subst ha
          rw [mapGet_mapSet_self]
          simp
        · rw [mapGet_mapSet_ne st.saved e a (st.dom e) ha]
          simp only [List.mem_cons]
          constructor
          · rintro (h | h)
            · exact absurd h ha
            · exact (h1 a).mp h
          · intro h
            exact Or.inr ((h1 a).mpr h)
      have h2' : ∀ a v, mapGet (applyStyleOp st (StyleOp.capture e)).saved a = some v →
          v = dom0 a := by
        intro a v hv
        rw [hsaved] at hv
        by_cases ha : a = e
        · subst ha
          rw [mapGet_mapSet_self, Option.some_inj] at hv
          rw [← hv, hdome]
        · rw [mapGet_mapSet_ne st.saved e a (st.dom e) ha] at hv
          exact h2 a v hv
      have h3' : ∀ a, a ∉ muts → (applyStyleOp st (StyleOp.capture e)).dom a = dom0 a :=
        fun a ha => h3 a ha
      have h4' : (mapKeys (applyStyleOp st (StyleOp.capture e)).saved).Nodup := by
        rw [hsaved]
        exact nodup_mapKeys_mapSet st.saved e (st.dom e) h4
      obtain ⟨g1, g2, g3, g4⟩ :=
        ih (applyStyleOp st (StyleOp.capture e)) (e :: caps) muts h1' h2' h3' h4' hc3
      rw [hstep]
      refine ⟨g1, g2, ?_, ?_⟩
      · intro a ha
        rcases List.mem_cons.mp ha with ha | ha
        · have hae : a = e := by
            cases ha
            rfl
          subst hae
          apply g4
          rw [hsaved, mapGet_mapSet_self]
          rfl
        · exact g3 a ha
      · intro a ha
        apply g4
        rw [hsaved]
        exact mapGet_isSome_mapSet st.saved e a (st.dom e) ha
    | mutate e v =>
      have hd' : disciplinedFrom rest caps (e :: muts) := hd
      have hstep : runStyleOps st (StyleOp.mutate e v :: rest) =
          runStyleOps (applyStyleOp st (StyleOp.mutate e v)) rest := rfl
      have h3' : ∀ a, a ∉ (e :: muts) →
          (applyStyleOp st (StyleOp.mutate e v)).dom a = dom0 a := by
        intro a ha
        simp only [List.mem_cons, not_or] at ha
        show Function.update st.dom e v a = dom0 a
        rw [Function.update_noteq ha.1]
        exact h3 a ha.2
      obtain ⟨g1, g2, g3, g4⟩ :=
        ih (applyStyleOp st (StyleOp.mutate e v)) caps (e :: muts) h1 h2 h3' h4 hd'
      rw [hstep]
      refine ⟨g1, g2, ?_, g4⟩
      intro a ha
      rcases List.mem_cons.mp ha with ha | ha
      · cases ha
      · exact g3 a ha

/-- Under the capture-once-before-mutation discipline — the discipline the
`styles.has(element)` guard of the modular `saveOriginalStyle` helper
enforces, not one the monolithic `useSplitMode` activation always satisfies —
deactivation sets every captured element's style attribute back to its
pre-modification string (activate followed by deactivate is the identity on
captured elements) and empties the map. -/
theorem captureOnce_restore_identity (dom0 : Nat → String) (ops : List StyleOp) (h : disciplined ops) :
    (∀ e, StyleOp.capture e ∈ ops →
      (deactivateSplit (runStyleOps ⟨dom0, []⟩ ops)).dom e = dom0 e) ∧
    (deactivateSplit (runStyleOps ⟨dom0, []⟩ ops)).saved = [] := by
  obtain ⟨g1, g2, g3, _⟩ := runStyleOps_aux dom0 ops ⟨dom0, []⟩ [] []
    (by intro e; simp [mapGet]) (by intro e v hv; simp [mapGet] at hv)
    (fun e _ => rfl) (by simp [mapKeys]) h
  refine ⟨?_, rfl⟩
  intro e he
  obtain ⟨v, hv⟩ := Option.isSome_iff_exists.mp (g3 e he)
  show restoreAll (runStyleOps ⟨dom0, []⟩ ops).saved (runStyleOps ⟨dom0, []⟩ ops).dom e = dom0 e
  rw [restoreAll_get _ _ e v g2 hv]
  exact g1 e v hv

/-- A concrete disciplined trace: element 1's style is captured once, both
elements are mutated, and deactivation restores element 1's original style
and clears the map. -/
theorem captureOnce_restore_identity_example :
    disciplined [StyleOp.capture 1, StyleOp.mutate 1 "display: none", StyleOp.capture 2,
      StyleOp.mutate 2 "display: grid", StyleOp.mutate 1 "height: 100px"] ∧
    (deactivateSplit (runStyleOps ⟨fun n => if n = 1 then "color: red" else "", []⟩
      [StyleOp.capture 1, StyleOp.mutate 1 "display: none", StyleOp.capture 2,
        StyleOp.mutate 2 "display: grid", StyleOp.mutate 1 "height: 100px"])).dom 1 =
      "color: red" ∧
    (deactivateSplit (runStyleOps ⟨fun n => if n = 1 then "color: red" else "", []⟩
      [StyleOp.capture 1, StyleOp.mutate 1 "display: none", StyleOp.capture 2,
        StyleOp.mutate 2 "display: grid", StyleOp.mutate 1 "height: 100px"])).saved = [] := by
  have hd : disciplined [StyleOp.capture 1, StyleOp.mutate 1 "display: none", StyleOp.capture 2,
      StyleOp.mutate 2 "display: grid", StyleOp.mutate 1 "height: 100px"] := by
    simp [disciplined, disciplinedFrom]
  refine ⟨hd, ?_, (captureOnce_restore_identity _ _ hd).2⟩
  have h1 := (captureOnce_restore_identity (fun n => if n = 1 then "color: red" else "") _ hd).1 1 (by simp)
  simpa using h1

/-- Claim C3 evaluated at the failing input: the code violates the claim
(and its own comment, "We must restore the exact original style attribute
for clean reversibility").  First part: on the op trace the activation
performs on a preview area that is a direct child of the wrapper — capture
(children loop), hide with `display: none`, re-capture (line 157/229),
re-show with `display: block` — the element's pre-modification style
`color: red` is captured, yet deactivation restores the post-mutation
`display: none`, not `color: red`, so activate-then-deactivate is not the
identity.  Second part: the fully embedded README activation
(`activateReadmeSplit`, preview node 3 among the wrapper's children) followed
by deactivation leaves the preview's style attribute holding the
re-captured `display: none` declaration instead of its original value. -/
theorem C3_doubleCapture_restores_mutated_style :
    (StyleOp.capture 3 ∈ [StyleOp.capture 3, StyleOp.mutate 3 "display: none",
        StyleOp.capture 3, StyleOp.mutate 3 "display: block"] ∧
      (deactivateSplit (runStyleOps ⟨fun _ => "color: red", []⟩
        [StyleOp.capture 3, StyleOp.mutate 3 "display: none",
          StyleOp.capture 3, StyleOp.mutate 3 "display: block"])).dom 3 =
        "display: none" ∧
      ¬ (deactivateSplit (runStyleOps ⟨fun _ => "color: red", []⟩
        [StyleOp.capture 3, StyleOp.mutate 3 "display: none",
          StyleOp.capture 3, StyleOp.mutate 3 "display: block"])).dom 3 =
        "color: red") ∧
    ((deactivateDom (activateReadmeSplit 0 1 2 3 4 5 true [1, 2, 3] 500
        ⟨fun n => if n = 3 then some 0 else none,
          fun n => if n = 3 then [("color", "red")] else [], []⟩)).styleOf 3 =
        [("color", "red"), ("display", "none")] ∧
      ¬ (deactivateDom (activateReadmeSplit 0 1 2 3 4 5 true [1, 2, 3] 500
        ⟨fun n => if n = 3 then some 0 else none,
          fun n => if n = 3 then [("color", "red")] else [], []⟩)).styleOf 3 =
        (⟨fun n => if n = 3 then some 0 else none,
          fun n => if n = 3 then [("color", "red")] else [], []⟩ : Dom).styleOf 3) := by
  refine ⟨⟨?_, ?_, ?_⟩, ?_, ?_⟩ <;> decide

/-! ## Claim theorems: preview relocation (C4) and the in-flight flag (C5) -/

/-- Counterexample to claim C4 as stated: a concrete README editor instance
whose activation relocates the preview node (3) into the CodeMirror
container (5); deactivation restores styles but the preview's parent is
still the CodeMirror container, not its original parent (0). -/
theorem C4_previewRelocation_counterexample :
    (activateReadmeSplit 0 1 2 3 4 5 true [1, 2, 3] 500
      ⟨fun n => if n = 3 then some 0 else none, fun _ => [], []⟩).parentOf 3 = some 5 ∧
    (deactivateDom (activateReadmeSplit 0 1 2 3 4 5 true [1, 2, 3] 500
      ⟨fun n => if n = 3 then some 0 else none, fun _ => [], []⟩)).parentOf 3 = some 5 ∧
    ¬ (deactivateDom (activateReadmeSplit 0 1 2 3 4 5 true [1, 2, 3] 500
      ⟨fun n => if n = 3 then some 0 else none, fun _ => [], []⟩)).parentOf 3 =
      (⟨fun n => if n = 3 then some 0 else none, fun _ => [], []⟩ : Dom).parentOf 3 := by
  refine ⟨?_, ?_, ?_⟩ <;> decide

/-- Claim C4 as amended: deactivating split mode restores every captured
style attribute and clears the mapping, but performs no DOM relocation —
the parent relation is left unchanged, so the preview node stays where
activation moved it. -/
theorem C4_deactivation_no_relocation (d : Dom) :
    (deactivateDom d).parentOf = d.parentOf ∧
    (deactivateDom d).saved = [] ∧
    ((mapKeys d.saved).Nodup → ∀ e v, mapGet d.saved e = some v →
      (deactivateDom d).styleOf e = v) := by
  refine ⟨rfl, rfl, ?_⟩
  intro hn e v hv
  show restoreAll d.saved d.styleOf e = v
  exact restoreAll_get _ _ e v hn hv

/-- Witness for the amended C4 at a concrete state with one captured style
entry. -/
theorem C4_deactivation_no_relocation_witness :
    (mapKeys (⟨fun _ => none, fun _ => [], [(1, [("color", "red")])]⟩ : Dom).saved).Nodup ∧
    mapGet (⟨fun _ => none, fun _ => [], [(1, [("color", "red")])]⟩ : Dom).saved 1 =
      some [("color", "red")] ∧
    (deactivateDom ⟨fun _ => none, fun _ => [], [(1, [("color", "red")])]⟩).styleOf 1 =
      [("color", "red")] := by
  refine ⟨by decide, by decide, ?_⟩
  exact (C4_deactivation_no_relocation ⟨fun _ => none, fun _ => [], [(1, [("color", "red")])]⟩).2.2
    (by decide) 1 [("color", "red")] (by decide)

theorem refreshStep_inv (st : RefreshState) (ev : RefreshEvent) (h : RefreshInv st) :
    RefreshInv (refreshStep st ev) := by
  obtain ⟨h1, h2⟩ := h
  cases ev with
  | invoke c =>
    by_cases hr : st.isRefreshing = true
    · simp only [refreshStep, hr, if_true]
      exact ⟨h1, h2⟩
    · have hr' : st.isRefreshing = false := by
        cases hb : st.isRefreshing
        · rfl
        · exact absurd hb hr
      have h0 : st.inFlight = 0 := by
        rcases Nat.lt_or_ge st.inFlight 1 with h | h
        · omega
        · exfalso
          exact hr (h2.mpr (by omega))
      cases c with
      | true =>
        simp only [refreshStep, hr', Bool.false_eq_true, if_false, if_true]
        refine ⟨?_, ?_⟩
        · show st.inFlight + 1 ≤ 1
          omega
        · show true = true ↔ st.inFlight + 1 = 1
          simp [h0]
      | false =>
        simp only [refreshStep, hr', Bool.false_eq_true, if_false]
        exact ⟨h1, h2⟩
  | complete ok =>
    constructor
    · show st.inFlight - 1 ≤ 1
      omega
    · show false = true ↔ st.inFlight - 1 = 1
      constructor
      · intro h
        cases h
      · intro h
        exfalso
        rcases h2 with ⟨hmp, hmpr⟩
        rcases Nat.lt_or_ge st.inFlight 2 with hlt | hge
        · omega
        · omega

theorem runRefresh_inv (evs : List RefreshEvent) : RefreshInv (runRefresh evs) := by
  have haux : ∀ (l : List RefreshEvent) (st : RefreshState), RefreshInv st →
      RefreshInv (l.foldl refreshStep st) := by
    intro l
    induction l with
    | nil => intro st h; exact h
    | cons ev rest ih =>
      intro st h
      exact ih (refreshStep st ev) (refreshStep_inv st ev h)
  exact haux evs refreshInit ⟨by decide, by decide⟩

/-- Claim C5: no two preview fetches are ever in flight at once — every run
of the refresher keeps at most one fetch in flight; an invocation of
`refreshPreview` while the in-flight flag is set returns immediately,
changing nothing and starting no fetch; and completion of the refresh clears
the flag whether the fetch succeeded or failed. -/
theorem C5_inflight_flag :
    (∀ evs : List RefreshEvent, (runRefresh evs).inFlight ≤ 1) ∧
    (∀ (st : RefreshState) (c : Bool), st.isRefreshing = true →
      refreshStep st (RefreshEvent.invoke c) = st) ∧
    (∀ (st : RefreshState) (ok : Bool),
      (refreshStep st (RefreshEvent.complete ok)).isRefreshing = false) := by
  refine ⟨fun evs => (runRefresh_inv evs).1, ?_, ?_⟩
  · intro st c h
    simp [refreshStep, h]
  · intro st ok
    rfl

/-- Witness for C5 at concrete states and a concrete event trace. -/
theorem C5_inflight_flag_witness :
    (⟨true, 1⟩ : RefreshState).isRefreshing = true ∧
    refreshStep ⟨true, 1⟩ (RefreshEvent.invoke true) = ⟨true, 1⟩ ∧
    (refreshStep ⟨true, 1⟩ (RefreshEvent.complete false)).isRefreshing = false ∧
    (runRefresh [RefreshEvent.invoke true, RefreshEvent.invoke true,
      RefreshEvent.complete false]).inFlight ≤ 1 :=
  ⟨rfl, C5_inflight_flag.2.1 ⟨true, 1⟩ true rfl, C5_inflight_flag.2.2 ⟨true, 1⟩ false,
    C5_inflight_flag.1 [RefreshEvent.invoke true, RefreshEvent.invoke true,
      RefreshEvent.complete false]⟩

/-! ## Claim theorems: silent degradation (C6), discovery (C7), debounce (C8) -/

/-- Claim C6: failures degrade silently — `extractGitHubData` (a total
function) returns the all-null record when the payload script is missing or
unparseable, and with the payload object absent only the hidden-input token
fallback can be non-null; `fetchPreview` returns null on a non-ok response
and when the body carries no (or an empty, hence falsy) `html` field; and
with any required GitHub datum null the preview-refresh hook does not
activate. -/
theorem C6_silent_degradation :
    (∀ pg : PageState, pg.reactAppScript = none →
      extractGitHubData pg = ⟨none, none, none, none⟩) ∧
    (∀ pg : PageState, pg.reactAppScript = some none →
      extractGitHubData pg = ⟨none, none, none, none⟩) ∧
    (∀ pg : PageState, pg.reactAppScript = some (some none) →
      extractGitHubData pg = ⟨none, none, none, orNull pg.tokenInput⟩) ∧
    (∀ resp : PreviewResponse, resp.ok = false → fetchPreview resp = none) ∧
    (∀ resp : PreviewResponse, resp.dataField.bind (fun o => o) = none →
      fetchPreview resp = none) ∧
    (∀ resp : PreviewResponse, resp.dataField.bind (fun o => o) = some "" →
      fetchPreview resp = none) ∧
    (∀ d : GitHubData, d.previewUrl = none ∨ d.commitOid = none ∨ d.fileName = none ∨
      d.authenticityToken = none → previewRefreshSetup d = none) := by
  refine ⟨?_, ?_, ?_, ?_, ?_, ?_, ?_⟩
  · intro pg h
    obtain ⟨rs, ti⟩ := pg
    cases h
    rfl
  · intro pg h
    obtain ⟨rs, ti⟩ := pg
    cases h
    rfl
  · intro pg h
    obtain ⟨rs, ti⟩ := pg
    cases h
    rfl
  · intro resp h
    obtain ⟨ok, df⟩ := resp
    cases h
    rfl
  · intro resp h
    obtain ⟨ok, df⟩ := resp
    simp only at h
    cases ok
    · rfl
    · show orNull (df.bind (fun o => o)) = none
      rw [h]
      rfl
  · intro resp h
    obtain ⟨ok, df⟩ := resp
    simp only at h
    cases ok
    · rfl
    · show orNull (df.bind (fun o => o)) = none
      rw [h]
      rfl
  · intro d hd
    obtain ⟨pu, co, fn, tk⟩ := d
    rcases pu <;> rcases co <;> rcases fn <;> rcases tk <;>
      simp_all [previewRefreshSetup]

/-- Witness for C6 at concrete page states, responses and data records. -/
theorem C6_silent_degradation_witness :
    (⟨none, some "tok"⟩ : PageState).reactAppScript = none ∧
    extractGitHubData ⟨none, some "tok"⟩ = ⟨none, none, none, none⟩ ∧
    (⟨false, some (some "<p>hi</p>")⟩ : PreviewResponse).ok = false ∧
    fetchPreview ⟨false, some (some "<p>hi</p>")⟩ = none ∧
    previewRefreshSetup ⟨some "u", none, some "f", some "t"⟩ = none :=
  ⟨rfl, C6_silent_degradation.1 ⟨none, some "tok"⟩ rfl, rfl,
    C6_silent_degradation.2.2.2.1 ⟨false, some (some "<p>hi</p>")⟩ rfl,
    C6_silent_degradation.2.2.2.2.2.2 ⟨some "u", none, some "f", some "t"⟩ (Or.inr (Or.inl rfl))⟩

theorem processWrapper_initialized (w : Wrapper) (h : w.initialized = true) :
    processWrapper w = w := by
  simp [processWrapper, h]

theorem processWrapper_iterate_fixed (n : Nat) (w : Wrapper) (h : w.initialized = true) :
    processWrapper^[n] w = w :=
  Function.iterate_fixed (processWrapper_initialized w h) n

theorem processWrapper_cases (w : Wrapper) :
    processWrapper w = w ∨
    (w.initialized = false ∧ (processWrapper w).initialized = true ∧
      (processWrapper w).injections ≤ w.injections + 1) := by
  by_cases hm : w.matchesBase = true
  · by_cases hi : w.initialized = true
    · exact Or.inl (processWrapper_initialized w hi)
    · have hi' : w.initialized = false := by
        cases hb : w.initialized
        · rfl
        · exact absurd hb hi
      right
      by_cases ht : w.hasTab = true <;>
        simp [processWrapper, hm, hi', ht]
  · have hm' : w.matchesBase = false := by
      cases hb : w.matchesBase
      · rfl
      · exact absurd hb hm
    exact Or.inl (by simp [processWrapper, hm'])

theorem processWrapper_iterate_le_one (n : Nat) (w : Wrapper) (h : w.injections = 0) :
    (processWrapper^[n] w).injections ≤ 1 := by
  induction n generalizing w with
  | zero =>
    simp only [Function.iterate_zero, id_eq]
    rw [h]
    exact Nat.zero_le 1
  | succ n ih =>
    rw [Function.iterate_succ_apply]
    rcases processWrapper_cases w with hc | ⟨_, hinit, hle⟩
    · rw [hc]
      exact ih w h
    · rw [processWrapper_iterate_fixed n _ hinit]
      omega

theorem initSplitView_iterate (n : Nat) (ws : List Wrapper) :
    initSplitView^[n] ws = ws.map (fun w => processWrapper^[n] w) := by
  induction n generalizing ws with
  | zero => simp
  | succ n ih =>
    rw [Function.iterate_succ_apply, ih]
    show (initSplitView ws).map _ = _
    rw [show initSplitView ws = ws.map processWrapper from rfl, List.map_map]
    rfl

/-- Claim C7: editor discovery processes every wrapper at most once — a
marked wrapper is left completely untouched by a scan; whenever a scan
injects into a wrapper, the wrapper was unmarked and is marked by that same
processing step (the marker is set before the injection); and over any
number of repeated scans — mutation- or navigation-triggered — every wrapper
of a document that starts uninjected receives at most one injection. -/
theorem C7_editor_discovery_at_most_once :
    (∀ w : Wrapper, w.initialized = true → processWrapper w = w) ∧
    (∀ w : Wrapper, (processWrapper w).injections ≠ w.injections →
      w.initialized = false ∧ (processWrapper w).initialized = true) ∧
    (∀ (ws : List Wrapper) (n : Nat), (∀ w ∈ ws, w.injections = 0) →
      ∀ w' ∈ initSplitView^[n] ws, w'.injections ≤ 1) := by
  refine ⟨processWrapper_initialized, ?_, ?_⟩
  · intro w hne
    rcases processWrapper_cases w with hc | ⟨h1, h2, _⟩
    · exact absurd (congrArg Wrapper.injections hc) hne
    · exact ⟨h1, h2⟩
  · intro ws n h0 w' hw'
    rw [initSplitView_iterate] at hw'
    obtain ⟨w, hw, rfl⟩ := List.mem_map.mp hw'
    exact processWrapper_iterate_le_one n w (h0 w hw)

/-- Witness for C7: a marked wrapper is untouched, and an unmarked wrapper
ends with exactly one injection after three scans. -/
theorem C7_editor_discovery_at_most_once_witness :
    processWrapper ⟨true, true, true, 5⟩ = ⟨true, true, true, 5⟩ ∧
    (⟨true, true, false, 0⟩ : Wrapper).injections = 0 ∧
    (⟨true, true, true, 1⟩ : Wrapper).injections ≤ 1 :=
  ⟨C7_editor_discovery_at_most_once.1 ⟨true, true, true, 5⟩ rfl, rfl,
    C7_editor_discovery_at_most_once.2.2 [⟨true, true, false, 0⟩] 3 (by decide) ⟨true, true, true, 1⟩ (by decide)⟩

theorem debounceStep_inv (s : DebounceState) (ev : DebounceEvent) (h : DebounceInv s) :
    DebounceInv (debounceStep s ev) := by
  cases ev with
  | trigger =>
    right
    refine ⟨s.next, rfl, ?_⟩
    show s.next :: (match s.last with
      | none => s.active
      | some i => s.active.erase i) = [s.next]
    rcases h with h | ⟨i, hl, ha⟩
    · rw [h]
      cases s.last <;> rfl
    · rw [hl, ha]
      simp
  | fire id =>
    by_cases hmem : s.active.contains id = true
    · rcases h with h | ⟨i, hl, ha⟩
      · rw [h] at hmem
        simp [List.contains] at hmem
      · have hid : id = i := by
          rw [ha] at hmem
          simpa [List.contains] using hmem
        subst hid
        left
        show (if s.active.contains id = true then
          { s with active := s.active.erase id } else s).active = []
        rw [if_pos hmem, ha]
        simp
    · have hmem' : s.active.contains id = false := by
        cases hb : s.active.contains id
        · rfl
        · exact absurd hb hmem
      show DebounceInv (if s.active.contains id = true then
        { s with active := s.active.erase id } else s)
      rw [hmem']
      simpa using h

theorem runDebounce_inv (evs : List DebounceEvent) : DebounceInv (runDebounce evs) := by
  have haux : ∀ (l : List DebounceEvent) (s : DebounceState), DebounceInv s →
      DebounceInv (l.foldl debounceStep s) := by
    intro l
    induction l with
    | nil => intro s h; exact h
    | cons ev rest ih =>
      intro s h
      exact ih (debounceStep s ev) (debounceStep_inv s ev h)
  exact haux evs debounceInit (Or.inl rfl)

/-- Claim C8: at most one debounce timer is pending at any time — every
reachable state has at most one active timer; only the most recently
scheduled timer can still fire; a new triggering event leaves exactly the
newly scheduled timer pending (the pending one is cleared first); and a
cleared or superseded timer's deadline runs no callback and changes
nothing. -/
theorem C8_debounce_single_timer :
    (∀ evs : List DebounceEvent, (runDebounce evs).active.length ≤ 1) ∧
    (∀ (evs : List DebounceEvent) (i : Nat), timerLive (runDebounce evs) i = true →
      (runDebounce evs).last = some i) ∧
    (∀ evs : List DebounceEvent,
      (debounceStep (runDebounce evs) DebounceEvent.trigger).active =
        [(runDebounce evs).next]) ∧
    (∀ (s : DebounceState) (i : Nat), timerLive s i = false →
      debounceStep s (DebounceEvent.fire i) = s) := by
  refine ⟨?_, ?_, ?_, ?_⟩
  · intro evs
    rcases runDebounce_inv evs with h | ⟨i, _, ha⟩
    · rw [h]; decide
    · rw [ha]; simp
  · intro evs i hlive
    rcases runDebounce_inv evs with h | ⟨j, hl, ha⟩
    · rw [timerLive, h] at hlive
      simp [List.contains] at hlive
    · have : i = j := by
        rw [timerLive, ha] at hlive
        simpa [List.contains] using hlive
      rw [this, hl]
  · intro evs
    show (runDebounce evs).next :: (match (runDebounce evs).last with
      | none => (runDebounce evs).active
      | some i => (runDebounce evs).active.erase i) = [(runDebounce evs).next]
    rcases runDebounce_inv evs with h | ⟨i, hl, ha⟩
    · rw [h]
      cases (runDebounce evs).last <;> rfl
    · rw [hl, ha]
      simp
  · intro s i hdead
    show (if s.active.contains i = true then
      { s with active := s.active.erase i } else s) = s
    rw [timerLive] at hdead
    rw [hdead]
    rfl

/-- Witness for C8 at a concrete event trace and a concrete state. -/
theorem C8_debounce_single_timer_witness :
    timerLive (runDebounce [DebounceEvent.trigger, DebounceEvent.trigger]) 1 = true ∧
    (runDebounce [DebounceEvent.trigger, DebounceEvent.trigger]).last = some 1 ∧
    timerLive (⟨[5], some 5, 6⟩ : DebounceState) 3 = false ∧
    debounceStep ⟨[5], some 5, 6⟩ (DebounceEvent.fire 3) = ⟨[5], some 5, 6⟩ ∧
    (runDebounce [DebounceEvent.trigger, DebounceEvent.trigger]).active.length ≤ 1 :=
  ⟨by decide, C8_debounce_single_timer.2.1 [DebounceEvent.trigger, DebounceEvent.trigger] 1 (by decide),
    by decide, C8_debounce_single_timer.2.2.2 ⟨[5], some 5, 6⟩ 3 (by decide),
    C8_debounce_single_timer.1 [DebounceEvent.trigger, DebounceEvent.trigger]⟩

end GSV
